import Mathlib

/-!
Verification of the iterative log-domain intensity-normalisation engine
(src/cmd/mtnormalise.cpp).

The voxel grid is modelled as an index type `Fin n` ordered as the source's
`Loop (0, 3)` iterates it; a 3-D image is a function `Fin n → α` and a mask a
function `Fin n → Bool`.  Per-voxel arithmetic on `float`/`double` data is
modelled exactly over a linear ordered field (`ℚ` where the source uses only
field operations and comparisons, `ℝ` where it takes logarithms, exponentials
or square roots); division is the total field division (division by zero gives
zero) and `Real.sqrt` of a negative number gives zero, idealising IEEE junk
values (`inf`/`nan`) as well-defined junk numbers.  Source exceptions
(`throw Exception (...)`) are modelled with `Except`.
-/

/-- The constant `DEFAULT_MAIN_ITER_VALUE` (mtnormalise.cpp line 28). -/
def DEFAULT_MAIN_ITER_VALUE : ℕ := 15

/-- The constant `DEFAULT_BALANCE_MAXITER_VALUE` (mtnormalise.cpp line 29). -/
def DEFAULT_BALANCE_MAXITER_VALUE : ℕ := 7

/-- Model of `std::round` applied to the nonnegative quantities `num_voxels * 0.25f`
and `num_voxels * 0.75f` (lines 456 and 459): round half away from zero,
which for nonnegative arguments is `⌊q + 1/2⌋`.  The products are exact in
single precision for any realistic voxel count, so the ideal rational value
is used. -/
def rnd (q : ℚ) : ℕ := (⌊q + 1 / 2⌋).toNat

section OutlierRejection

variable {α : Type} [LinearOrderedField α] {n : ℕ}

/-- The voxels of the spatial grid in the order `Loop (0, 3)` visits them. -/
def voxList (n : ℕ) : List (Fin n) := List.finRange n

/-- Number of active voxels of a mask (the counting loop at line 401). -/
def countActive (m : Fin n → Bool) : ℕ := ((voxList n).filter (fun v => m v)).length

/-- Lines 445-452: after `threaded_copy (initial_mask, mask)` resets the
working mask, the `summed_log` values of the active (= initial-mask) voxels
are collected into `summed_log_values` in loop order. -/
def collectVals (im : Fin n → Bool) (sl : Fin n → α) : List α :=
  ((voxList n).filter (fun v => im v)).map sl

/-- Denotation of the two `std::nth_element` calls at lines 457 and 460: the
value left at position `k` is the `k`-th order statistic (0-based) of the
collected list, i.e. position `k` of the sorted list.  (The second, partial
`nth_element` over `[lower_quartile_it, end)` also yields the order statistic
of the full list because the first call partitioned the list around position
`round(0.25 N)`.)  Out-of-range positions yield `none`; the source would
dereference past the end of the vector there. -/
def orderStat (l : List α) (k : ℕ) : Option α := (l.insertionSort (· ≤ ·))[k]?

/-- The body of the `outlier_rejection` lambda (lines 430-488), given the
`summed_log` image already computed at lines 434-442: reset the mask to
`initial_mask`, collect the active values, set `num_voxels` to their number,
select the two quartiles, derive the thresholds, and deactivate every active
voxel whose `summed_log` lies strictly outside `[lower, upper]`, decrementing
`num_voxels` once per deactivation.  Returns the new mask and the new
`num_voxels`; `none` models the out-of-range quartile dereference (undefined
behaviour in the source). -/
def outlierRejection (outlierRange : α) (im : Fin n → Bool) (sl : Fin n → α) :
    Option ((Fin n → Bool) × ℕ) :=
  let vals := collectVals im sl
  let numVoxels := vals.length
  let k1 := rnd ((numVoxels : ℚ) * (1 / 4))
  let k2 := rnd ((numVoxels : ℚ) * (3 / 4))
  match orderStat vals k1, orderStat vals k2 with
  | some lowerQuartile, some upperQuartile =>
      let lowerThreshold := lowerQuartile - outlierRange * (upperQuartile - lowerQuartile)
      let upperThreshold := upperQuartile + outlierRange * (upperQuartile - lowerQuartile)
      let newMask : Fin n → Bool :=
        fun v => im v && !(decide (sl v < lowerThreshold) || decide (upperThreshold < sl v))
      let deactivated := ((voxList n).filter
        (fun v => im v && (decide (sl v < lowerThreshold) || decide (upperThreshold < sl v)))).length
      some (newMask, numVoxels - deactivated)
  | _, _ => none

end OutlierRejection

section OutputStage

variable {α : Type} [LinearOrderedField α]

/-- Lines 670-674: the scaling applied to tissue j is the balance factor when
the -balanced option was given, and 1 otherwise. -/
def balanceMultiplier (outputBalanced : Bool) (factor : α) : α :=
  if outputBalanced then factor else 1

/-- The ReadInOutput functor (lines 680-686) at one voxel of one tissue: it
sets the input volume index to 0, and if that volume-0 value is negative
writes the zero vector over the whole output row, else writes the whole input
row times the balance multiplier divided by the norm-field value.  The row has
nv + 1 volumes (the headers are elevated to 4-D, so a 3-D image is a
one-volume row). -/
def ReadInOutput {nv : ℕ} (balance_multiplier : α) (normFieldValue : α)
    (inRow : Fin (nv + 1) → α) : Fin (nv + 1) → α :=
  if inRow 0 < 0 then fun _ => 0
  else fun k => inRow k * balance_multiplier / normFieldValue

/-- Following the spec's words (section 6): each output value equals
max(input, 0) times the balance multiplier divided by the norm-field value,
volume by volume. -/
def ReadInOutputSpec {nv : ℕ} (balance_multiplier : α) (normFieldValue : α)
    (inRow : Fin (nv + 1) → α) : Fin (nv + 1) → α :=
  fun k => max (inRow k) 0 * balance_multiplier / normFieldValue

end OutputStage

/-- One voxel's action of the LogNormScale functor (lines 655-661): add the
log-field value when the voxel is masked, then immediately overwrite the
accumulator with exp(accumulator / num_voxels).  The exponential is applied
inside the per-voxel operator, i.e. once per voxel, not once after the loop.
Sequential index-order semantics of the loop over the shared accumulator. -/
noncomputable def LogNormScaleStep (num_voxels : ℕ) (acc : ℝ) (maskValue : Bool)
    (normFieldLogValue : ℝ) : ℝ :=
  Real.exp ((acc + if maskValue then normFieldLogValue else 0) / (num_voxels : ℝ))

/-- Lines 652-663: lognorm_scale starts at 0 and, when num_voxels is non-zero,
is produced by folding the LogNormScale functor over all voxels. -/
noncomputable def lognorm_scale {n : ℕ} (num_voxels : ℕ) (mask : Fin n → Bool)
    (norm_field_log : Fin n → ℝ) : ℝ :=
  if num_voxels = 0 then 0
  else (voxList n).foldl
    (fun acc v => LogNormScaleStep num_voxels acc (mask v) (norm_field_log v)) 0

/-- Following the spec's words (section 6): lognorm_scale is exp of the mean
of norm_field_log over the final mask. -/
noncomputable def lognorm_scale_spec {n : ℕ} (num_voxels : ℕ) (mask : Fin n → Bool)
    (norm_field_log : Fin n → ℝ) : ℝ :=
  Real.exp ((∑ v, if mask v then norm_field_log v else 0) / (num_voxels : ℝ))

/-- Exceptions thrown by run() that the embedding carries in Except: the
empty-mask error of line 404, the non-positive balance factor error of lines
551-554 (carrying the reported 1-based tissue index and the factor value),
and a marker for the undefined out-of-range quartile dereference (C10). -/
inductive MtErr where
  | maskEmpty : MtErr
  | nonPositiveFactor (tissueIndex : ℕ) (value : ℝ) : MtErr
  | quartileOutOfRange : MtErr

/-- Entry (i, j) of the lower-triangular Cholesky factor of A, by recursion on
the column j (Cholesky-Banachiewicz, the algorithm behind Eigen's llt() at
line 299).  Total real arithmetic: sqrt of a negative argument is 0 and
division by zero is 0, standing in for the IEEE junk the library produces on a
non-positive-definite input — Eigen's LLT neither throws nor aborts there. -/
noncomputable def cholL {m : ℕ} (A : Matrix (Fin m) (Fin m) ℝ) : ℕ → Fin m → ℝ
  | j, i =>
    if hj : j < m then
      if i.val < j then 0
      else
        let diag := Real.sqrt (A ⟨j, hj⟩ ⟨j, hj⟩ -
          ∑ k : Fin j, (cholL A k.val ⟨j, hj⟩) ^ 2)
        if i.val = j then diag
        else (A i ⟨j, hj⟩ - ∑ k : Fin j, cholL A k.val i * cholL A k.val ⟨j, hj⟩) / diag
    else 0
termination_by j _ => j
decreasing_by all_goals exact k.isLt

/-- The Cholesky factor as a matrix. -/
noncomputable def lltL {m : ℕ} (A : Matrix (Fin m) (Fin m) ℝ) : Matrix (Fin m) (Fin m) ℝ :=
  fun i j => cholL A j.val i

/-- Forward substitution: solve L z = b for lower-triangular L. -/
noncomputable def fwdSub {m : ℕ} (L : Matrix (Fin m) (Fin m) ℝ) (b : Fin m → ℝ) : ℕ → ℝ
  | i =>
    if hi : i < m then
      (b ⟨i, hi⟩ - ∑ k : Fin i,
          L ⟨i, hi⟩ ⟨k.val, lt_trans k.isLt hi⟩ * fwdSub L b k.val) /
        L ⟨i, hi⟩ ⟨i, hi⟩
    else 0
termination_by i => i
decreasing_by exact k.isLt

/-- Backward substitution: solve U x = z for upper-triangular U. -/
noncomputable def bwdSub {m : ℕ} (U : Matrix (Fin m) (Fin m) ℝ) (z : Fin m → ℝ) : ℕ → ℝ
  | i =>
    if hi : i < m then
      (z ⟨i, hi⟩ - ∑ k : Fin (m - (i + 1)),
          U ⟨i, hi⟩ ⟨i + 1 + k.val, by have := k.isLt; omega⟩ * bwdSub U z (i + 1 + k.val)) /
        U ⟨i, hi⟩ ⟨i, hi⟩
    else 0
termination_by i => m - i
decreasing_by have := k.isLt; omega

/-- Eigen's M.llt().solve(alpha): factor M = L Lᵀ, then forward- and
backward-substitute.  No positive-definiteness check, no error channel. -/
noncomputable def lltSolve {m : ℕ} (A : Matrix (Fin m) (Fin m) ℝ) (b : Fin m → ℝ) :
    Fin m → ℝ :=
  fun i => bwdSub (lltL A).transpose (fun j => fwdSub (lltL A) b j.val) i.val

/-- The Choleski function (lines 294-301): forms the normal equations
M = Xᵀ X, alpha = Xᵀ y and returns M.llt().solve(alpha). -/
noncomputable def Choleski {N T : ℕ} (X : Matrix (Fin N) (Fin T) ℝ) (y : Fin N → ℝ) :
    Fin T → ℝ :=
  lltSolve (X.transpose * X) (X.transpose.mulVec y)

/-- The Choleski call as it sits in the exception-carrying run(): the source
body contains no throw and no check, so it is pure. -/
noncomputable def CholeskiE {N T : ℕ} (X : Matrix (Fin N) (Fin T) ℝ) (y : Fin N → ℝ) :
    Except MtErr (Fin T → ℝ) :=
  Except.ok (Choleski X y)

/-- A rank-deficient one-sample, one-parameter design: the single row is 0,
so the normal matrix Xᵀ X is the zero matrix, which is not positive definite. -/
noncomputable def rankDeficientDesign : Matrix (Fin 1) (Fin 1) ℝ := fun _ _ => 0

/-- The all-ones target of the balance solve (y = Ones at line 522), here of
length 1. -/
noncomputable def onesTarget : Fin 1 → ℝ := fun _ => 1

/-- The positivity scan of lines 550-554: the loop over tissues throws at the
first factor that is not strictly positive. -/
noncomputable def firstNonPos {T : ℕ} (f : Fin T → ℝ) : Option (Fin T) :=
  (List.finRange T).find? (fun j => decide (f j ≤ 0))

/-- log_sum accumulated at lines 549-556. -/
noncomputable def logSumFactors {T : ℕ} (f : Fin T → ℝ) : ℝ := ∑ j, Real.log (f j)

/-- Line 557: balance_factors /= exp(log_sum / n_tissue_types) — division by
the geometric mean of the factor vector. -/
noncomputable def rescaleFactors {T : ℕ} (f : Fin T → ℝ) : Fin T → ℝ :=
  fun j => f j / Real.exp (logSumFactors f / (T : ℝ))

/-- Lines 548-557 as a whole: throw on the first non-positive factor,
reporting the 1-based tissue index and the value, else rescale by the
geometric mean. -/
noncomputable def checkAndRescale {T : ℕ} (f : Fin T → ℝ) : Except MtErr (Fin T → ℝ) :=
  match firstNonPos f with
  | some j => Except.error (MtErr.nonPositiveFactor (j.val + 1) (f j))
  | none => Except.ok (rescaleFactors f)

/-- The rows of the balance design X (lines 521-533): one row per active
voxel in loop order, entry j equal to combined_tissue / norm_field_image. -/
noncomputable def balanceRows {n T : ℕ} (m : Fin n → Bool)
    (comb : Fin n → Fin T → ℝ) (field : Fin n → ℝ) : List (Fin T → ℝ) :=
  ((voxList n).filter (fun v => m v)).map (fun v j => comb v j / field v)

/-- A list of rows as a design matrix. -/
noncomputable def rowsMatrix {T : ℕ} (rows : List (Fin T → ℝ)) :
    Matrix (Fin rows.length) (Fin T) ℝ :=
  fun i j => (rows.get i) j

/-- Lines 521-546: the balance factors produced by the Choleski solve of the
active-voxel design against the all-ones target. -/
noncomputable def balanceFactorsOf {n T : ℕ} (m : Fin n → Bool)
    (comb : Fin n → Fin T → ℝ) (field : Fin n → ℝ) : Fin T → ℝ :=
  Choleski (rowsMatrix (balanceRows m comb field)) (fun _ => 1)

/-- summed_log (lines 434-442): per voxel, the log of the balance-weighted
sum of combined-tissue values divided by the norm field. -/
noncomputable def summed_log {n T : ℕ} (balance_factors : Fin T → ℝ)
    (combined_tissue : Fin n → Fin T → ℝ) (norm_field_image : Fin n → ℝ) : Fin n → ℝ :=
  fun v => Real.log (∑ j, balance_factors j * combined_tissue v j / norm_field_image v)

/-- One pass of the inner balance loop (lines 514-563): when more than one
tissue is present solve for balance factors and check/rescale them, then run
outlier rejection with range 1.5 on the recomputed summed_log; the
out-of-range quartile dereference is surfaced as an error. -/
noncomputable def innerPassE {n T : ℕ} (im : Fin n → Bool)
    (comb : Fin n → Fin T → ℝ) (field : Fin n → ℝ)
    (m : Fin n → Bool) (f : Fin T → ℝ) :
    Except MtErr ((Fin n → Bool) × (Fin T → ℝ) × ℕ) :=
  match (if 1 < T then checkAndRescale (balanceFactorsOf m comb field) else Except.ok f) with
  | Except.error e => Except.error e
  | Except.ok f2 =>
    match outlierRejection (3 / 2 : ℝ) im (summed_log f2 comb field) with
    | none => Except.error MtErr.quartileOutOfRange
    | some (m2, nv2) => Except.ok (m2, f2, nv2)

section ControllerE

variable {M D E : Type} [DecidableEq M]

/-- The inner balance loop (lines 511-584) in the exception channel, with
abstract pass body: run the pass, compare the post-rejection mask against
prev_mask, copy mask to prev_mask, and repeat while not converged and fuel
remains.  Returns final mask, data and the balance_converged flag. -/
def innerLoopE (passE : M → D → Except E (M × D)) : ℕ → M → M → D → Except E (M × D × Bool)
  | 0, m, _, d => Except.ok (m, d, false)
  | fuel + 1, m, prev, d =>
    match passE m d with
    | Except.error e => Except.error e
    | Except.ok (m2, d2) =>
      if m2 = prev then Except.ok (m2, d2, true)
      else innerLoopE passE fuel m2 m2 d2

/-- The outer iteration loop (lines 506-628) in the exception channel: inner
balance loop with fuel 7, then the (non-throwing) field fit, then the next
iteration with prev_mask = mask. -/
def outerLoopE (passE : M → D → Except E (M × D)) (fieldE : M → D → D) :
    ℕ → M → M → D → Except E (M × D)
  | 0, m, _, d => Except.ok (m, d)
  | iters + 1, m, prev, d =>
    match innerLoopE passE DEFAULT_BALANCE_MAXITER_VALUE m prev d with
    | Except.error e => Except.error e
    | Except.ok (m2, d2, _) => outerLoopE passE fieldE iters m2 m2 (fieldE m2 d2)

/-- Lines 501-628: initial coarse rejection (range 3), snapshot of mask into
prev_mask, then the outer loop. -/
def runControllerE (coarseE : D → Except E (M × D))
    (passE : M → D → Except E (M × D)) (fieldE : M → D → D)
    (maxIter : ℕ) (d0 : D) : Except E (M × D) :=
  match coarseE d0 with
  | Except.error e => Except.error e
  | Except.ok (m1, d1) => outerLoopE passE fieldE maxIter m1 m1 d1

end ControllerE

/-- Non-finite-propagating addition of raw float image values: none stands for
nan or ±inf, which the IEEE sum propagates (the finite-overflow case is
idealised away, as everywhere in this embedding). -/
def faddO : Option ℚ → Option ℚ → Option ℚ
  | some a, some b => some (a + b)
  | _, _ => none

/-- Lines 369-377: the summed tissue image — per voxel, the sum of the raw
(unclamped) input tissue values at volume 0, starting from 0. -/
def summedImage {n T : ℕ} (inputs : Fin T → Fin n → Option ℚ) : Fin n → Option ℚ :=
  fun v => (List.finRange T).foldl (fun acc j => faddO acc (inputs j v)) (some 0)

/-- mask_refiner (lines 168-173): refined = isfinite(summed) && summed > 0 &&
initial_mask; a non-finite sum fails the isfinite test. -/
def mask_refiner (summedValue : Option ℚ) (origMaskValue : Bool) : Bool :=
  match summedValue with
  | some s => decide (0 < s) && origMaskValue
  | none => false

/-- The initial processing mask produced by the ThreadedLoop at line 378. -/
def initial_mask {n T : ℕ} (inputs : Fin T → Fin n → Option ℚ) (orig : Fin n → Bool) :
    Fin n → Bool :=
  fun v => mask_refiner (summedImage inputs v) (orig v)

/-- The user-visible message of each modelled exception (for the factor error,
the fixed prefix of the interpolated message; the quartile marker stands for
the source's undefined out-of-range dereference and has no source message). -/
def errMessage : MtErr → String
  | MtErr.maskEmpty => "Mask contains no valid voxels."
  | MtErr.nonPositiveFactor _ _ => "Non-positive tissue balance factor was computed."
  | MtErr.quartileOutOfRange => "quartile index out of range"

/-- Lines 400-404: count the active voxels of the refined mask and throw when
there are none, otherwise hand mask and count on. -/
def setupE {n T : ℕ} (inputs : Fin T → Fin n → Option ℚ) (orig : Fin n → Bool) :
    Except MtErr ((Fin n → Bool) × ℕ) :=
  if countActive (initial_mask inputs orig) = 0 then Except.error MtErr.maskEmpty
  else Except.ok (initial_mask inputs orig, countActive (initial_mask inputs orig))

/-- run() up to the controller: refine the initial mask, count voxels, fail on
an empty mask before any iteration, then run the (step-abstracted)
controller. -/
def runFullE {n T : ℕ} {M D : Type} [DecidableEq M]
    (inputs : Fin T → Fin n → Option ℚ) (orig : Fin n → Bool)
    (mkD : (Fin n → Bool) → ℕ → D)
    (coarseE : D → Except MtErr (M × D)) (passE : M → D → Except MtErr (M × D))
    (fieldE : M → D → D) (maxIter : ℕ) : Except MtErr (M × D) :=
  match setupE inputs orig with
  | Except.error e => Except.error e
  | Except.ok (m0, nv) => runControllerE coarseE passE fieldE maxIter (mkD m0 nv)

/-- Observable controller events: an outlier rejection with its range
multiplier, a balance-factor estimation, and a field fit. -/
inductive ControllerEvent where
  | reject (range : ℚ) : ControllerEvent
  | balance : ControllerEvent
  | fit : ControllerEvent
deriving DecidableEq

/-- Result of the inner balance loop: final mask and data, the number of
passes executed, the balance_converged flag, and the event trace. -/
structure InnerResult (M D : Type) where
  mask : M
  data : D
  passes : ℕ
  converged : Bool
  trace : List ControllerEvent

/-- Result of the controller: final mask and data, the pass count and the
convergence flag of each outer iteration's inner loop, and the event trace. -/
structure OuterResult (M D : Type) where
  mask : M
  data : D
  innerCounts : List ℕ
  innerConvs : List Bool
  trace : List ControllerEvent

section Controller

variable {M D : Type} [DecidableEq M]

/-- One pass body of the inner balance loop (lines 518-563) with the
component bodies abstracted: balance estimation (4.3) runs only when more
than one tissue is present and reads the current mask; the rejection (4.4)
with range 1.5 reads only the data — it resets the mask from initial_mask
internally — and returns the new mask. -/
def innerPassStep (T : ℕ) (balanceStep : M → D → D) (rejectStep : ℚ → D → M × D)
    (m : M) (d : D) : M × D :=
  rejectStep (3 / 2) (if 1 < T then balanceStep m d else d)

/-- The events one inner pass emits. -/
def innerPassTrace (T : ℕ) : List ControllerEvent :=
  (if 1 < T then [ControllerEvent.balance] else []) ++ [ControllerEvent.reject (3 / 2)]

/-- The inner balance loop (lines 511-584): while not converged and fuel
remains, run a pass, compare the post-rejection mask with prev_mask
(convergence), then copy mask into prev_mask and continue. -/
def innerLoop (T : ℕ) (balanceStep : M → D → D) (rejectStep : ℚ → D → M × D) :
    ℕ → M → M → D → InnerResult M D
  | 0, m, _, d => ⟨m, d, 0, false, []⟩
  | fuel + 1, m, prev, d =>
    if (innerPassStep T balanceStep rejectStep m d).1 = prev then
      ⟨(innerPassStep T balanceStep rejectStep m d).1,
        (innerPassStep T balanceStep rejectStep m d).2, 1, true, innerPassTrace T⟩
    else
      let r := innerLoop T balanceStep rejectStep fuel
        (innerPassStep T balanceStep rejectStep m d).1
        (innerPassStep T balanceStep rejectStep m d).1
        (innerPassStep T balanceStep rejectStep m d).2
      ⟨r.mask, r.data, r.passes + 1, r.converged, innerPassTrace T ++ r.trace⟩

/-- The outer iteration loop (lines 506-628): inner balance loop with fuel
DEFAULT_BALANCE_MAXITER_VALUE, then the field fit (4.5/4.6, which does not
change the mask), then the next iteration; runs exactly its iteration count,
whether or not the inner loop converged. -/
def outerLoop (T : ℕ) (balanceStep : M → D → D) (rejectStep : ℚ → D → M × D)
    (fieldStep : M → D → D) : ℕ → M → M → D → OuterResult M D
  | 0, m, _, d => ⟨m, d, [], [], []⟩
  | iters + 1, m, prev, d =>
    let r := innerLoop T balanceStep rejectStep DEFAULT_BALANCE_MAXITER_VALUE m prev d
    let rest := outerLoop T balanceStep rejectStep fieldStep iters r.mask r.mask
      (fieldStep r.mask r.data)
    ⟨rest.mask, rest.data, r.passes :: rest.innerCounts, r.converged :: rest.innerConvs,
      r.trace ++ ControllerEvent.fit :: rest.trace⟩

/-- Lines 501-628: one coarse rejection with range 3.0, the snapshot of mask
into prev_mask, then the outer loop. -/
def runController (T : ℕ) (balanceStep : M → D → D) (rejectStep : ℚ → D → M × D)
    (fieldStep : M → D → D) (maxIter : ℕ) (d0 : D) : OuterResult M D :=
  let r := outerLoop T balanceStep rejectStep fieldStep maxIter
    (rejectStep 3 d0).1 (rejectStep 3 d0).1 (rejectStep 3 d0).2
  ⟨r.mask, r.data, r.innerCounts, r.innerConvs, ControllerEvent.reject 3 :: r.trace⟩

/-- The (mask, data) state after k inner passes from a given start. -/
def innerStateSeq (T : ℕ) (balanceStep : M → D → D) (rejectStep : ℚ → D → M × D)
    (m : M) (d : D) : ℕ → M × D
  | 0 => (m, d)
  | k + 1 => innerPassStep T balanceStep rejectStep
      (innerStateSeq T balanceStep rejectStep m d k).1
      (innerStateSeq T balanceStep rejectStep m d k).2

/-- The mask the convergence test sees after pass k, position 0 being the
prev_mask snapshot from before the loop. -/
def maskSeq (T : ℕ) (balanceStep : M → D → D) (rejectStep : ℚ → D → M × D)
    (m prev : M) (d : D) : ℕ → M
  | 0 => prev
  | k + 1 => (innerStateSeq T balanceStep rejectStep m d (k + 1)).1

/-- Pass k (1-based) observes convergence: its post-rejection mask equals the
prev_mask snapshot taken after the previous pass. -/
def stabAt (T : ℕ) (balanceStep : M → D → D) (rejectStep : ℚ → D → M × D)
    (m prev : M) (d : D) (k : ℕ) : Prop :=
  maskSeq T balanceStep rejectStep m prev d k =
    maskSeq T balanceStep rejectStep m prev d (k - 1)

end Controller

/-- Number of occurrences of one controller event in a trace. -/
def evCount (e : ControllerEvent) (tr : List ControllerEvent) : ℕ :=
  tr.countP (fun x => decide (x = e))

section RejectionLemmas

variable {α : Type} [LinearOrderedField α] {n : ℕ}

theorem rnd_mono {q r : ℚ} (h : q ≤ r) : rnd q ≤ rnd r :=
  Int.toNat_le_toNat (Int.floor_le_floor (by linarith))

/-- The lower quartile index `round(0.25 N)` as a natural-number formula. -/
theorem rnd_quarter (N : ℕ) : rnd ((N : ℚ) * (1 / 4)) = (N + 2) / 4 := by
  unfold rnd
  have h : (N : ℚ) * (1 / 4) + 1 / 2 = (((N : ℤ) + 2 : ℤ) : ℚ) / ((4 : ℕ) : ℚ) := by
    push_cast; ring
  rw [h, Rat.floor_intCast_div_natCast]
  have h2 : ((N : ℤ) + 2) = ((N + 2 : ℕ) : ℤ) := by push_cast; ring
  rw [h2, ← Int.ofNat_ediv, Int.toNat_natCast]

/-- The upper quartile index `round(0.75 N)` as a natural-number formula. -/
theorem rnd_three_quarter (N : ℕ) : rnd ((N : ℚ) * (3 / 4)) = (3 * N + 2) / 4 := by
  unfold rnd
  have h : (N : ℚ) * (3 / 4) + 1 / 2 = ((((3 * N : ℕ) : ℤ) + 2 : ℤ) : ℚ) / ((4 : ℕ) : ℚ) := by
    push_cast; ring
  rw [h, Rat.floor_intCast_div_natCast]
  have h2 : (((3 * N : ℕ) : ℤ) + 2) = ((3 * N + 2 : ℕ) : ℤ) := by push_cast; ring
  rw [h2, ← Int.ofNat_ediv, Int.toNat_natCast]

theorem orderStat_isSome (l : List α) (k : ℕ) :
    (orderStat l k).isSome = true ↔ k < l.length := by
  unfold orderStat
  constructor
  · intro h
    by_contra hk
    rw [List.getElem?_eq_none (by rw [List.length_insertionSort]; omega)] at h
    simp at h
  · intro h
    rw [List.getElem?_eq_getElem (by rw [List.length_insertionSort]; omega)]
    rfl

theorem length_filter_decompose {β : Type} (l : List β) (p q : β → Bool) :
    (l.filter p).length =
      (l.filter (fun x => p x && q x)).length + (l.filter (fun x => p x && !q x)).length := by
  induction l with
  | nil => simp
  | cons a t ih =>
      by_cases hp : p a <;> by_cases hq : q a <;>
        simp [List.filter_cons, hp, hq, ih] <;> omega

end RejectionLemmas

theorem outlierRejection_isSome_iff {α : Type} [LinearOrderedField α] {n : ℕ}
    (outlierRange : α) (im : Fin n → Bool) (sl : Fin n → α) :
    (outlierRejection outlierRange im sl).isSome = true ↔
      rnd (((collectVals im sl).length : ℚ) * (3 / 4)) < (collectVals im sl).length := by
  unfold outlierRejection
  dsimp only
  have hmono : rnd (((collectVals im sl).length : ℚ) * (1 / 4)) ≤
      rnd (((collectVals im sl).length : ℚ) * (3 / 4)) := by
    apply rnd_mono
    have hN : (0 : ℚ) ≤ ((collectVals im sl).length : ℚ) := by positivity
    nlinarith
  rcases h2 : orderStat (collectVals im sl) (rnd (((collectVals im sl).length : ℚ) * (3 / 4)))
      with _ | q3
  · have hk2 : ¬ rnd (((collectVals im sl).length : ℚ) * (3 / 4)) < (collectVals im sl).length := by
      rw [← orderStat_isSome]
      simp [h2]
    rcases h1 : orderStat (collectVals im sl) (rnd (((collectVals im sl).length : ℚ) * (1 / 4)))
        with _ | q1 <;> simp [hk2]
  · have hk2 : rnd (((collectVals im sl).length : ℚ) * (3 / 4)) < (collectVals im sl).length := by
      rw [← orderStat_isSome]
      simp [h2]
    have hk1 : rnd (((collectVals im sl).length : ℚ) * (1 / 4)) < (collectVals im sl).length :=
      lt_of_le_of_lt hmono hk2
    obtain ⟨q1, h1⟩ := Option.isSome_iff_exists.mp ((orderStat_isSome _ _).mpr hk1)
    rw [h1]
    simp [hk2]

/-- When the upper quartile index is in range, the rejection pass succeeds and
returns exactly the mask and voxel count written by the loop at lines 466-473:
the quartiles are the order statistics at the two rounded indices, and the
result is the reset mask minus the strictly-out-of-threshold voxels. -/
theorem outlierRejection_eq_some {α : Type} [LinearOrderedField α] {n : ℕ}
    (outlierRange : α) (im : Fin n → Bool) (sl : Fin n → α)
    (hk : rnd (((collectVals im sl).length : ℚ) * (3 / 4)) < (collectVals im sl).length) :
    ∃ q1 q3,
      orderStat (collectVals im sl) (rnd (((collectVals im sl).length : ℚ) * (1 / 4))) = some q1 ∧
      orderStat (collectVals im sl) (rnd (((collectVals im sl).length : ℚ) * (3 / 4))) = some q3 ∧
      outlierRejection outlierRange im sl = some
        (fun v => im v && !(decide (sl v < q1 - outlierRange * (q3 - q1)) ||
            decide (q3 + outlierRange * (q3 - q1) < sl v)),
          (collectVals im sl).length - ((voxList n).filter
            (fun v => im v && (decide (sl v < q1 - outlierRange * (q3 - q1)) ||
              decide (q3 + outlierRange * (q3 - q1) < sl v)))).length) := by
  have hmono : rnd (((collectVals im sl).length : ℚ) * (1 / 4)) ≤
      rnd (((collectVals im sl).length : ℚ) * (3 / 4)) := by
    apply rnd_mono
    have hN : (0 : ℚ) ≤ ((collectVals im sl).length : ℚ) := by positivity
    nlinarith
  have hk1 := lt_of_le_of_lt hmono hk
  obtain ⟨q1, h1⟩ := Option.isSome_iff_exists.mp ((orderStat_isSome _ _).mpr hk1)
  obtain ⟨q3, h2⟩ := Option.isSome_iff_exists.mp ((orderStat_isSome _ _).mpr hk)
  refine ⟨q1, q3, h1, h2, ?_⟩
  unfold outlierRejection
  dsimp only
  rw [h1, h2]

/-- Claim C4: in every outlier-rejection pass over the N summed_log values
collected from the mask reset to initial_mask, the lower quartile is the order
statistic at index round(0.25 N) and the upper quartile the order statistic at
index round(0.75 N); the thresholds are Q1 - range (Q3 - Q1) and
Q3 + range (Q3 - Q1); exactly the active voxels whose summed_log lies strictly
outside the closed threshold interval are deactivated, and num_voxels is
decremented once per deactivated voxel (stated additively).  The hypothesis is
the in-range condition for the upper quartile index, under which the source's
selection and dereference are defined. -/
theorem outlierRejection_quartiles_thresholds_deactivation
    {α : Type} [LinearOrderedField α] {n : ℕ}
    (outlierRange : α) (im : Fin n → Bool) (sl : Fin n → α)
    (hk : rnd (((collectVals im sl).length : ℚ) * (3 / 4)) < (collectVals im sl).length) :
    ∃ q1 q3 m2 nv2,
      orderStat (collectVals im sl) (rnd (((collectVals im sl).length : ℚ) * (1 / 4))) = some q1 ∧
      orderStat (collectVals im sl) (rnd (((collectVals im sl).length : ℚ) * (3 / 4))) = some q3 ∧
      outlierRejection outlierRange im sl = some (m2, nv2) ∧
      (∀ v, m2 v = true ↔ (im v = true ∧
        q1 - outlierRange * (q3 - q1) ≤ sl v ∧ sl v ≤ q3 + outlierRange * (q3 - q1))) ∧
      nv2 + ((voxList n).filter (fun v => im v &&
        (decide (sl v < q1 - outlierRange * (q3 - q1)) ||
         decide (q3 + outlierRange * (q3 - q1) < sl v)))).length = (collectVals im sl).length := by
  obtain ⟨q1, q3, h1, h2, hpass⟩ := outlierRejection_eq_some outlierRange im sl hk
  refine ⟨q1, q3, _, _, h1, h2, hpass, ?_, ?_⟩
  · intro v
    simp [not_or, not_lt, and_assoc]
  · have hdec := length_filter_decompose (voxList n) (fun v => im v)
      (fun v => decide (sl v < q1 - outlierRange * (q3 - q1)) ||
        decide (q3 + outlierRange * (q3 - q1) < sl v))
    have hN : (collectVals im sl).length = ((voxList n).filter (fun v => im v)).length := by
      simp [collectVals]
    omega

/-- Witness for C4 at the specification's nine-point example: all nine voxels
active, summed_log values 0..8, range 0; the upper quartile index
round(0.75 * 9) = 7 is in range and the theorem applies. -/
theorem outlierRejection_quartiles_thresholds_deactivation_witness :
    (rnd (((collectVals (fun _ : Fin 9 => true) (fun v => (v : ℚ))).length : ℚ) * (3 / 4)) <
      (collectVals (fun _ : Fin 9 => true) (fun v => (v : ℚ))).length) ∧
    (∃ q1 q3 m2 nv2,
      orderStat (collectVals (fun _ : Fin 9 => true) (fun v => (v : ℚ)))
        (rnd (((collectVals (fun _ : Fin 9 => true) (fun v => (v : ℚ))).length : ℚ) * (1 / 4))) =
          some q1 ∧
      orderStat (collectVals (fun _ : Fin 9 => true) (fun v => (v : ℚ)))
        (rnd (((collectVals (fun _ : Fin 9 => true) (fun v => (v : ℚ))).length : ℚ) * (3 / 4))) =
          some q3 ∧
      outlierRejection (0 : ℚ) (fun _ : Fin 9 => true) (fun v => (v : ℚ)) = some (m2, nv2) ∧
      (∀ v, m2 v = true ↔ ((fun _ : Fin 9 => true) v = true ∧
        q1 - 0 * (q3 - q1) ≤ (v : ℚ) ∧ (v : ℚ) ≤ q3 + 0 * (q3 - q1))) ∧
      nv2 + ((voxList 9).filter (fun v => (fun _ : Fin 9 => true) v &&
        (decide ((v : ℚ) < q1 - 0 * (q3 - q1)) ||
         decide (q3 + 0 * (q3 - q1) < (v : ℚ))))).length =
        (collectVals (fun _ : Fin 9 => true) (fun v => (v : ℚ))).length) := by
  have hlen : (collectVals (fun _ : Fin 9 => true) (fun v : Fin 9 => (v : ℚ))).length = 9 := by
    simp [collectVals, voxList]
  have hk : rnd (((collectVals (fun _ : Fin 9 => true)
      (fun v : Fin 9 => (v : ℚ))).length : ℚ) * (3 / 4)) <
      (collectVals (fun _ : Fin 9 => true) (fun v : Fin 9 => (v : ℚ))).length := by
    rw [hlen]
    have h9 := rnd_three_quarter 9
    simp at h9
    simp [h9]
  exact ⟨hk, outlierRejection_quartiles_thresholds_deactivation 0
    (fun _ : Fin 9 => true) (fun v => (v : ℚ)) hk⟩

/-- Claim C9: an outlier-rejection pass first resets the working mask to
initial_mask and afterwards only clears bits, so the resulting active mask is
a subset of initial_mask and the resulting num_voxels equals the exact count
of active voxels; moreover for range at least 0 (and valid quartile indices,
which force a non-empty collection) at least one voxel stays active, because
the voxels realising the quartile order statistics satisfy both thresholds. -/
theorem outlierRejection_mask_invariant_and_nonempty
    {α : Type} [LinearOrderedField α] {n : ℕ}
    (outlierRange : α) (im : Fin n → Bool) (sl : Fin n → α)
    (hk : rnd (((collectVals im sl).length : ℚ) * (3 / 4)) < (collectVals im sl).length)
    (hr : 0 ≤ outlierRange) :
    ∃ m2 nv2, outlierRejection outlierRange im sl = some (m2, nv2) ∧
      (∀ v, m2 v = true → im v = true) ∧
      nv2 = countActive m2 ∧
      ∃ v, m2 v = true := by
  obtain ⟨q1, q3, h1, h2, hpass⟩ := outlierRejection_eq_some outlierRange im sl hk
  have hmono : rnd (((collectVals im sl).length : ℚ) * (1 / 4)) ≤
      rnd (((collectVals im sl).length : ℚ) * (3 / 4)) := by
    apply rnd_mono
    have hN : (0 : ℚ) ≤ ((collectVals im sl).length : ℚ) := by positivity
    nlinarith
  have hk1 := lt_of_le_of_lt hmono hk
  obtain ⟨hk1s, hq1get⟩ := List.getElem?_eq_some.mp h1
  obtain ⟨hk2s, hq3get⟩ := List.getElem?_eq_some.mp h2
  have hsorted := List.sorted_insertionSort (· ≤ ·) (collectVals im sl)
  have hq13 : q1 ≤ q3 := by
    have hg := hsorted.rel_get_of_le
      (show (⟨rnd (((collectVals im sl).length : ℚ) * (1 / 4)), hk1s⟩ :
          Fin ((collectVals im sl).insertionSort (· ≤ ·)).length) ≤
        ⟨rnd (((collectVals im sl).length : ℚ) * (3 / 4)), hk2s⟩ from hmono)
    rw [List.get_eq_getElem, List.get_eq_getElem] at hg
    rw [hq1get, hq3get] at hg
    exact hg
  have hq1mem : q1 ∈ collectVals im sl := by
    have hmem : q1 ∈ (collectVals im sl).insertionSort (· ≤ ·) := by
      rw [← hq1get]; exact List.getElem_mem _
    exact (List.perm_insertionSort _ _).mem_iff.mp hmem
  obtain ⟨v, hvmem, hsv⟩ := List.mem_map.mp hq1mem
  have him : im v = true := by
    have := (List.mem_filter.mp hvmem).2
    simpa using this
  refine ⟨_, _, hpass, ?_, ?_, ?_⟩
  · intro w hw
    exact (Bool.and_eq_true _ _ |>.mp hw).1
  · have hdec := length_filter_decompose (voxList n) (fun v => im v)
      (fun v => decide (sl v < q1 - outlierRange * (q3 - q1)) ||
        decide (q3 + outlierRange * (q3 - q1) < sl v))
    have hN : (collectVals im sl).length = ((voxList n).filter (fun v => im v)).length := by
      simp [collectVals]
    have hca : countActive (fun v => im v &&
        !(decide (sl v < q1 - outlierRange * (q3 - q1)) ||
          decide (q3 + outlierRange * (q3 - q1) < sl v))) =
        ((voxList n).filter (fun v => im v &&
          !(decide (sl v < q1 - outlierRange * (q3 - q1)) ||
            decide (q3 + outlierRange * (q3 - q1) < sl v)))).length := by
      simp [countActive]
    rw [hca]
    omega
  · refine ⟨v, ?_⟩
    have hlo : ¬ (sl v < q1 - outlierRange * (q3 - q1)) := by
      rw [hsv]
      have : 0 ≤ outlierRange * (q3 - q1) := mul_nonneg hr (by linarith)
      linarith
    have hhi : ¬ (q3 + outlierRange * (q3 - q1) < sl v) := by
      rw [hsv]
      have : 0 ≤ outlierRange * (q3 - q1) := mul_nonneg hr (by linarith)
      linarith
    simp [him, hlo, hhi]

/-- Witness for C9: four active voxels with summed_log values 0..3 and the
balance-loop range 1.5. -/
theorem outlierRejection_mask_invariant_and_nonempty_witness :
    (rnd (((collectVals (fun _ : Fin 4 => true) (fun v => (v : ℚ))).length : ℚ) * (3 / 4)) <
      (collectVals (fun _ : Fin 4 => true) (fun v => (v : ℚ))).length) ∧
    ((0 : ℚ) ≤ (3 / 2 : ℚ)) ∧
    (∃ m2 nv2, outlierRejection (3 / 2 : ℚ) (fun _ : Fin 4 => true) (fun v => (v : ℚ)) =
        some (m2, nv2) ∧
      (∀ v, m2 v = true → (fun _ : Fin 4 => true) v = true) ∧
      nv2 = countActive m2 ∧
      ∃ v, m2 v = true) := by
  have hlen : (collectVals (fun _ : Fin 4 => true) (fun v : Fin 4 => (v : ℚ))).length = 4 := by
    simp [collectVals, voxList]
  have hk : rnd (((collectVals (fun _ : Fin 4 => true)
      (fun v : Fin 4 => (v : ℚ))).length : ℚ) * (3 / 4)) <
      (collectVals (fun _ : Fin 4 => true) (fun v : Fin 4 => (v : ℚ))).length := by
    rw [hlen]
    have h4 := rnd_three_quarter 4
    simp at h4
    simp [h4]
  exact ⟨hk, by norm_num, outlierRejection_mask_invariant_and_nonempty (3 / 2 : ℚ)
    (fun _ : Fin 4 => true) (fun v => (v : ℚ)) hk (by norm_num)⟩

/-- Claim C10: the quartile selection indexes the collected list at
round(0.25 N) and round(0.75 N); the guarded (total) embedding of the pass
succeeds exactly when round(0.75 N) < N, and the out-of-range dereference is
reachable: N = 1 gives round(0.75) = 1 and N = 2 gives round(1.5) = 2, one
past the end, and a concrete one-voxel pass returns none. -/
theorem outlierRejection_quartile_index_guard :
    (∀ (α : Type) [LinearOrderedField α] (n : ℕ) (outlierRange : α)
        (im : Fin n → Bool) (sl : Fin n → α),
        (outlierRejection outlierRange im sl).isSome = true ↔
          rnd (((collectVals im sl).length : ℚ) * (3 / 4)) < (collectVals im sl).length)
    ∧ rnd ((1 : ℚ) * (3 / 4)) = 1
    ∧ rnd ((2 : ℚ) * (3 / 4)) = 2
    ∧ outlierRejection (3 / 2 : ℚ) (fun _ : Fin 1 => true) (fun _ => 5) = none := by
  refine ⟨?_, ?_, ?_, ?_⟩
  · intro α inst n r im sl
    exact outlierRejection_isSome_iff r im sl
  · simpa using rnd_three_quarter 1
  · simpa using rnd_three_quarter 2
  · have h := outlierRejection_isSome_iff (3 / 2 : ℚ) (fun _ : Fin 1 => true) (fun _ => (5 : ℚ))
    have hlen : (collectVals (fun _ : Fin 1 => true) (fun _ => (5 : ℚ))).length = 1 := by
      simp [collectVals, voxList]
    rw [hlen] at h
    have hno : ¬ (outlierRejection (3 / 2 : ℚ) (fun _ : Fin 1 => true)
        (fun _ => (5 : ℚ))).isSome = true := by
      rw [h]
      have h1 := rnd_three_quarter 1
      simp at h1
      simp [h1]
    exact Option.not_isSome_iff_eq_none.mp hno

/-- Counterexample to claim C3 as stated: with two volumes, input row (1, -2),
balance multiplier 1 and norm field 1, the functor outputs -2 at volume 1
(no per-volume clamping), while the spec formula max(input, 0)/field gives 0;
the two functions differ. -/
theorem ReadInOutput_vs_spec_counterexample :
    ReadInOutput (1 : ℚ) 1 (![1, -2] : Fin (1 + 1) → ℚ) 1 = -2 ∧
    ReadInOutputSpec (1 : ℚ) 1 (![1, -2] : Fin (1 + 1) → ℚ) 1 = 0 ∧
    ReadInOutput (1 : ℚ) 1 (![1, -2] : Fin (1 + 1) → ℚ) ≠
      ReadInOutputSpec (1 : ℚ) 1 (![1, -2] : Fin (1 + 1) → ℚ) := by
  refine ⟨?_, ?_, ?_⟩
  · norm_num [ReadInOutput]
  · norm_num [ReadInOutputSpec]
  · intro h
    have h1 := congrFun h 1
    rw [show (ReadInOutput (1 : ℚ) 1 (![1, -2] : Fin (1 + 1) → ℚ) 1) = -2 by
      norm_num [ReadInOutput]] at h1
    rw [show (ReadInOutputSpec (1 : ℚ) 1 (![1, -2] : Fin (1 + 1) → ℚ) 1) = 0 by
      norm_num [ReadInOutputSpec]] at h1
    norm_num at h1

/-- Claim C3 amended: the output functor gates the whole row on the sign of
the volume-0 input value — if it is negative the entire output row is zero,
otherwise every volume is input times (balance factor if balanced else 1)
divided by the norm field, without per-volume clamping; for single-volume
(3-D) inputs this coincides with the claimed formula
max(input, 0) * multiplier / field. -/
theorem ReadInOutput_rowwise_formula :
    (∀ (α : Type) [LinearOrderedField α] (nv : ℕ) (balanced : Bool) (factor nf : α)
        (inRow : Fin (nv + 1) → α) (k : Fin (nv + 1)),
      ReadInOutput (balanceMultiplier balanced factor) nf inRow k =
        if inRow 0 < 0 then 0 else inRow k * balanceMultiplier balanced factor / nf)
    ∧ (∀ (α : Type) [LinearOrderedField α] (balanced : Bool) (factor nf : α)
        (inRow : Fin 1 → α) (k : Fin 1),
      ReadInOutput (balanceMultiplier balanced factor) nf inRow k =
        ReadInOutputSpec (balanceMultiplier balanced factor) nf inRow k) := by
  constructor
  · intro α inst nv balanced factor nf inRow k
    by_cases h : inRow 0 < 0 <;> simp [ReadInOutput, h]
  · intro α inst balanced factor nf inRow k
    have hk : k = 0 := Subsingleton.elim k 0
    subst hk
    by_cases h : inRow 0 < 0
    · simp [ReadInOutput, ReadInOutputSpec, h, max_eq_right (le_of_lt h)]
    · simp [ReadInOutput, ReadInOutputSpec, h, max_eq_left (not_lt.mp h)]

/-- Claim C2 is contradicted by the code (code bug): on a two-voxel final mask
with norm_field_log identically 0, the functor — which applies
exp(acc / num_voxels) after every voxel instead of once after the loop —
produces exp(1/2), while exp of the mean of norm_field_log over the mask is
exp(0) = 1, and those differ.  The source's own comment at line 652 says the
intent is the geometric mean over the mask. -/
theorem lognorm_scale_nested_exp_bug :
    lognorm_scale 2 (fun _ : Fin 2 => true) (fun _ => 0) = Real.exp (1 / 2) ∧
    lognorm_scale_spec 2 (fun _ : Fin 2 => true) (fun _ => 0) = 1 ∧
    Real.exp (1 / 2) ≠ 1 := by
  refine ⟨?_, ?_, ?_⟩
  · have hvl : voxList 2 = [0, 1] := rfl
    rw [lognorm_scale]
    norm_num [hvl, LogNormScaleStep, Real.exp_zero]
  · rw [lognorm_scale_spec]
    norm_num [Real.exp_zero]
  · intro h
    rw [Real.exp_eq_one_iff] at h
    norm_num at h

theorem Choleski_zero_design_eval :
    Choleski rankDeficientDesign onesTarget = fun _ => 0 := by
  funext i
  have hM : (rankDeficientDesign.transpose * rankDeficientDesign) =
      (fun _ _ => 0 : Matrix (Fin 1) (Fin 1) ℝ) := by
    funext a b
    simp [Matrix.mul_apply, Matrix.transpose, rankDeficientDesign]
  have hb : (rankDeficientDesign.transpose.mulVec onesTarget) = fun _ => 0 := by
    funext a
    simp [Matrix.mulVec, Matrix.transpose, Matrix.dotProduct, rankDeficientDesign, onesTarget]
  rw [Choleski, hM, hb, lltSolve]
  have hz : ∀ j : ℕ, fwdSub (lltL (fun _ _ => 0 : Matrix (Fin 1) (Fin 1) ℝ))
      (fun _ => 0) j = 0 := by
    intro j
    rw [fwdSub]
    rcases Nat.lt_or_ge j 1 with hj | hj
    · rw [dif_pos hj]
      have hje : j = 0 := by omega
      subst hje
      simp
    · rw [dif_neg (by omega)]
  have hfin : i = ⟨0, one_pos⟩ := Subsingleton.elim _ _
  subst hfin
  rw [bwdSub]
  rw [dif_pos one_pos]
  simp [hz]

theorem normal_matrix_not_posDef :
    ¬ (rankDeficientDesign.transpose * rankDeficientDesign).PosDef := by
  intro h
  have hx : (fun _ => 1 : Fin 1 → ℝ) ≠ 0 := by
    intro hx
    have := congrFun hx 0
    norm_num at this
  have h2 := h.2 (fun _ => 1) hx
  rw [show (rankDeficientDesign.transpose * rankDeficientDesign) =
      (fun _ _ => 0 : Matrix (Fin 1) (Fin 1) ℝ) from by
    funext a b
    simp [Matrix.mul_apply, Matrix.transpose, rankDeficientDesign]] at h2
  simp [Matrix.mulVec, Matrix.dotProduct] at h2

/-- Counterexample to claim C1 as stated: on the rank-deficient design whose
normal matrix Xᵀ X is the (non-positive-definite) zero matrix, the solver does
not report any error — embedded in the run's exception channel it returns ok
with the junk vector 0. -/
theorem Choleski_nonposdef_counterexample :
    ¬ (rankDeficientDesign.transpose * rankDeficientDesign).PosDef ∧
    CholeskiE rankDeficientDesign onesTarget = Except.ok (fun _ => 0) := by
  refine ⟨normal_matrix_not_posDef, ?_⟩
  rw [CholeskiE, Choleski_zero_design_eval]

/-- Claim C1 amended: the normal-equations Cholesky solver used for both
balance-factor and field-weight estimation never reports an error for any
design and target, positive definite or not; it always returns the result of
the LLT algorithm under total arithmetic (on the rank-deficient design above,
the zero vector), and the run continues with it. -/
theorem Choleski_never_errors :
    (∀ (N T : ℕ) (X : Matrix (Fin N) (Fin T) ℝ) (y : Fin N → ℝ),
      CholeskiE X y = Except.ok (Choleski X y)) ∧
    Choleski rankDeficientDesign onesTarget = fun _ => 0 :=
  ⟨fun _ _ _ _ => rfl, Choleski_zero_design_eval⟩

/-- Claim C6: whenever more than one tissue is present, immediately after a
balance-estimation pass whose factors are all strictly positive, the factors
are divided by the geometric mean of the vector (exp of the mean log), after
which the sum of the logs of the factors is 0, in particular within the
floating tolerance 1e-9. -/
theorem rescaled_balance_factors_log_sum_zero {T : ℕ} (f : Fin T → ℝ) (hT : 1 < T) (hpos : ∀ j, 0 < f j) :
    checkAndRescale f = Except.ok (rescaleFactors f) ∧
    |∑ j, Real.log (rescaleFactors f j)| ≤ 1e-9 := by
  have hTR : (T : ℝ) ≠ 0 := by
    have : (0 : ℝ) < T := by exact_mod_cast lt_trans one_pos hT
    linarith
  constructor
  · rw [checkAndRescale]
    have hnone : firstNonPos f = none := by
      rw [firstNonPos, List.find?_eq_none]
      intro j hj
      simp only [decide_eq_true_eq]
      push_neg
      exact hpos j
    rw [hnone]
  · have hsum : ∑ j, Real.log (rescaleFactors f j) = 0 := by
      have hlog : ∀ j, Real.log (rescaleFactors f j) =
          Real.log (f j) - logSumFactors f / (T : ℝ) := by
        intro j
        rw [rescaleFactors]
        rw [Real.log_div (ne_of_gt (hpos j)) (Real.exp_ne_zero _), Real.log_exp]
      rw [Finset.sum_congr rfl (fun j _ => hlog j)]
      rw [Finset.sum_sub_distrib, Finset.sum_const, Finset.card_univ, Fintype.card_fin,
        nsmul_eq_mul]
      rw [mul_div_cancel₀ _ hTR]
      rw [logSumFactors]
      ring
    rw [hsum]
    norm_num

/-- Witness for C6 at the concrete factor vector (2, 8) with two tissues. -/
theorem rescaled_balance_factors_log_sum_zero_witness :
    ((1 : ℕ) < 2) ∧ (∀ j : Fin 2, 0 < (![2, 8] : Fin 2 → ℝ) j) ∧
    (checkAndRescale (![2, 8] : Fin 2 → ℝ) = Except.ok (rescaleFactors ![2, 8]) ∧
      |∑ j, Real.log (rescaleFactors (![2, 8] : Fin 2 → ℝ) j)| ≤ 1e-9) := by
  have hpos : ∀ j : Fin 2, 0 < (![2, 8] : Fin 2 → ℝ) j := by
    intro j
    fin_cases j <;> norm_num
  exact ⟨by norm_num, hpos, rescaled_balance_factors_log_sum_zero (![2, 8] : Fin 2 → ℝ) (by norm_num) hpos⟩

/-- Claim C7: in a balance-estimation pass with more than one tissue, if the
computed factor vector has a non-positive entry (first offender j), the run
throws the fatal error carrying the 1-based tissue index and the factor value;
the factors are not rescaled (no ok result exists), the inner pass errors
before any rejection, and the error propagates through the whole controller so
that no further iteration or output occurs. -/
theorem nonpositive_balance_factor_aborts_run {n T : ℕ} (im m : Fin n → Bool)
    (comb : Fin n → Fin T → ℝ) (field : Fin n → ℝ) (f0 : Fin T → ℝ)
    (j : Fin T) (hT : 1 < T)
    (hj : firstNonPos (balanceFactorsOf m comb field) = some j) :
    balanceFactorsOf m comb field j ≤ 0 ∧
    checkAndRescale (balanceFactorsOf m comb field) =
      Except.error (MtErr.nonPositiveFactor (j.val + 1) (balanceFactorsOf m comb field j)) ∧
    (∀ g, checkAndRescale (balanceFactorsOf m comb field) ≠ Except.ok g) ∧
    innerPassE im comb field m f0 =
      Except.error (MtErr.nonPositiveFactor (j.val + 1) (balanceFactorsOf m comb field j)) ∧
    (∀ (M D : Type) [DecidableEq M] (coarseE : D → Except MtErr (M × D))
        (passE : M → D → Except MtErr (M × D)) (fieldE : M → D → D)
        (maxIter : ℕ) (d0 : D) (m1 : M) (d1 : D) (e : MtErr),
      1 ≤ maxIter → coarseE d0 = Except.ok (m1, d1) → passE m1 d1 = Except.error e →
      runControllerE coarseE passE fieldE maxIter d0 = Except.error e) := by
  have hle : balanceFactorsOf m comb field j ≤ 0 := by
    have hp := List.find?_some hj
    simpa using hp
  have hcr : checkAndRescale (balanceFactorsOf m comb field) =
      Except.error (MtErr.nonPositiveFactor (j.val + 1) (balanceFactorsOf m comb field j)) := by
    rw [checkAndRescale, hj]
  refine ⟨hle, hcr, ?_, ?_, ?_⟩
  · intro g hg
    rw [hcr] at hg
    exact Except.noConfusion hg
  · rw [innerPassE, if_pos hT, hcr]
  · intro M D instM coarseE passE fieldE maxIter d0 m1 d1 e hiter hcoarse hpass
    have hinner : innerLoopE passE DEFAULT_BALANCE_MAXITER_VALUE m1 m1 d1 =
        Except.error e := by
      have h7 : DEFAULT_BALANCE_MAXITER_VALUE = 6 + 1 := rfl
      rw [h7, innerLoopE, hpass]
    obtain ⟨k, hk⟩ : ∃ k, maxIter = k + 1 := ⟨maxIter - 1, by omega⟩
    subst hk
    rw [runControllerE, hcoarse]
    dsimp only
    rw [outerLoopE, hinner]

theorem fwdSub_zero {m : ℕ} (L : Matrix (Fin m) (Fin m) ℝ) (i : ℕ) :
    fwdSub L (fun _ => 0) i = 0 := by
  induction i using Nat.strong_induction_on with
  | _ i ih =>
    rw [fwdSub]
    rcases Nat.lt_or_ge i m with hi | hi
    · rw [dif_pos hi]
      have hz : ∀ k : Fin i, fwdSub L (fun _ => (0 : ℝ)) k.val = 0 := fun k => ih k.val k.isLt
      simp [hz]
    · rw [dif_neg (by omega)]

theorem bwdSub_zero {m : ℕ} (U : Matrix (Fin m) (Fin m) ℝ) :
    ∀ d i, m - i ≤ d → bwdSub U (fun _ => 0) i = 0 := by
  intro d
  induction d with
  | zero =>
      intro i h
      rw [bwdSub]
      rw [dif_neg (by omega)]
  | succ d ih =>
      intro i h
      rw [bwdSub]
      rcases Nat.lt_or_ge i m with hi | hi
      · rw [dif_pos hi]
        have hz : ∀ k : Fin (m - (i + 1)), bwdSub U (fun _ => (0 : ℝ)) (i + 1 + k.val) = 0 :=
          fun k => ih (i + 1 + k.val) (by have := k.isLt; omega)
        simp [hz]
      · rw [dif_neg (by omega)]

theorem lltSolve_zero_rhs {m : ℕ} (A : Matrix (Fin m) (Fin m) ℝ) :
    lltSolve A (fun _ => 0) = fun _ => 0 := by
  funext i
  rw [lltSolve]
  have hzf : (fun j : Fin m => fwdSub (lltL A) (fun _ => (0 : ℝ)) j.val) = fun _ => 0 :=
    funext fun j => fwdSub_zero _ _
  rw [hzf]
  exact bwdSub_zero _ (m - i.val) i.val le_rfl

theorem balanceFactorsOf_zero_tissues :
    balanceFactorsOf (fun _ : Fin 1 => true)
      (fun _ _ => (0 : ℝ) : Fin 1 → Fin 2 → ℝ) (fun _ => 1) = fun _ => 0 := by
  rw [balanceFactorsOf, Choleski]
  have hb : (rowsMatrix (balanceRows (fun _ : Fin 1 => true)
      (fun _ _ => (0 : ℝ) : Fin 1 → Fin 2 → ℝ) (fun _ => 1))).transpose.mulVec
      (fun _ => 1) = fun _ => 0 := by
    funext a
    simp [Matrix.mulVec, Matrix.dotProduct, rowsMatrix, balanceRows, voxList,
      Matrix.transpose]
  rw [hb, lltSolve_zero_rhs]

theorem firstNonPos_zero_vec : firstNonPos (fun _ : Fin 2 => (0 : ℝ)) = some 0 := by
  rw [firstNonPos]
  have hfr : (List.finRange 2) = [0, 1] := rfl
  rw [hfr]
  have hd : decide ((fun _ : Fin 2 => (0 : ℝ)) 0 ≤ 0) = true := decide_eq_true le_rfl
  rw [List.find?]
  rw [hd]

/-- Witness for C7: one active voxel whose two tissue values are both zero —
a rank-deficient balance design whose Choleski solve returns the zero factor
vector, so the first factor 0 triggers the fatal path with index 1. -/
theorem nonpositive_balance_factor_aborts_run_witness :
    ((1 : ℕ) < 2) ∧
    firstNonPos (balanceFactorsOf (fun _ : Fin 1 => true)
      (fun _ _ => (0 : ℝ) : Fin 1 → Fin 2 → ℝ) (fun _ => 1)) = some (0 : Fin 2) ∧
    (balanceFactorsOf (fun _ : Fin 1 => true)
        (fun _ _ => (0 : ℝ) : Fin 1 → Fin 2 → ℝ) (fun _ => 1) (0 : Fin 2) ≤ 0 ∧
      checkAndRescale (balanceFactorsOf (fun _ : Fin 1 => true)
        (fun _ _ => (0 : ℝ) : Fin 1 → Fin 2 → ℝ) (fun _ => 1)) =
        Except.error (MtErr.nonPositiveFactor ((0 : Fin 2).val + 1)
          (balanceFactorsOf (fun _ : Fin 1 => true)
            (fun _ _ => (0 : ℝ) : Fin 1 → Fin 2 → ℝ) (fun _ => 1) (0 : Fin 2))) ∧
      (∀ g, checkAndRescale (balanceFactorsOf (fun _ : Fin 1 => true)
        (fun _ _ => (0 : ℝ) : Fin 1 → Fin 2 → ℝ) (fun _ => 1)) ≠ Except.ok g) ∧
      innerPassE (fun _ : Fin 1 => true) (fun _ _ => (0 : ℝ) : Fin 1 → Fin 2 → ℝ)
        (fun _ => 1) (fun _ : Fin 1 => true) (fun _ => 1) =
        Except.error (MtErr.nonPositiveFactor ((0 : Fin 2).val + 1)
          (balanceFactorsOf (fun _ : Fin 1 => true)
            (fun _ _ => (0 : ℝ) : Fin 1 → Fin 2 → ℝ) (fun _ => 1) (0 : Fin 2))) ∧
      (∀ (M D : Type) [DecidableEq M] (coarseE : D → Except MtErr (M × D))
          (passE : M → D → Except MtErr (M × D)) (fieldE : M → D → D)
          (maxIter : ℕ) (d0 : D) (m1 : M) (d1 : D) (e : MtErr),
        1 ≤ maxIter → coarseE d0 = Except.ok (m1, d1) → passE m1 d1 = Except.error e →
        runControllerE coarseE passE fieldE maxIter d0 = Except.error e)) := by
  have hj : firstNonPos (balanceFactorsOf (fun _ : Fin 1 => true)
      (fun _ _ => (0 : ℝ) : Fin 1 → Fin 2 → ℝ) (fun _ => 1)) = some (0 : Fin 2) := by
    rw [balanceFactorsOf_zero_tissues]
    exact firstNonPos_zero_vec
  exact ⟨by norm_num, hj,
    nonpositive_balance_factor_aborts_run (fun _ : Fin 1 => true) (fun _ : Fin 1 => true)
      (fun _ _ => (0 : ℝ) : Fin 1 → Fin 2 → ℝ) (fun _ => 1) (fun _ => 1)
      (0 : Fin 2) (by norm_num) hj⟩

/-- Claim C8: the initial mask is true exactly where the summed raw tissue
value is finite and strictly positive and the external mask is true (a
nan-sum voxel and a non-positive-sum voxel are both excluded); when that mask
has zero active voxels the run fails with the error whose message is
"Mask contains no valid voxels." before any iteration (the whole run returns
that error, producing no output). -/
theorem initial_mask_filter_and_empty_mask_fatal :
    (∀ (n T : ℕ) (inputs : Fin T → Fin n → Option ℚ) (orig : Fin n → Bool) (v : Fin n),
      initial_mask inputs orig v = true ↔
        ((∃ s, summedImage inputs v = some s ∧ 0 < s) ∧ orig v = true)) ∧
    errMessage MtErr.maskEmpty = "Mask contains no valid voxels." ∧
    (∀ (n T : ℕ) (M D : Type) [DecidableEq M]
        (inputs : Fin T → Fin n → Option ℚ) (orig : Fin n → Bool)
        (mkD : (Fin n → Bool) → ℕ → D) (coarseE : D → Except MtErr (M × D))
        (passE : M → D → Except MtErr (M × D)) (fieldE : M → D → D) (maxIter : ℕ),
      countActive (initial_mask inputs orig) = 0 →
      runFullE inputs orig mkD coarseE passE fieldE maxIter = Except.error MtErr.maskEmpty) := by
  refine ⟨?_, rfl, ?_⟩
  · intro n T inputs orig v
    rw [initial_mask]
    rcases hs : summedImage inputs v with _ | s
    · simp [hs, mask_refiner]
    · simp [hs, mask_refiner]
  · intro n T M D instM inputs orig mkD coarseE passE fieldE maxIter h0
    rw [runFullE, setupE, if_pos h0]

/-- Witness for C8: one tissue over two voxels, value nan at voxel 0 and -1
at voxel 1, external mask all true: both voxels are excluded, the count is 0
and the whole run returns the empty-mask error. -/
theorem initial_mask_filter_and_empty_mask_fatal_witness :
    countActive (initial_mask (fun _ : Fin 1 => ![none, some (-1)])
      (fun _ : Fin 2 => true)) = 0 ∧
    runFullE (fun _ : Fin 1 => ![none, some (-1)])
      (fun _ : Fin 2 => true) (fun _ _ => ()) (fun d => Except.ok ((), d))
      (fun _ d => Except.ok ((), d)) (fun _ d => d) DEFAULT_MAIN_ITER_VALUE =
      Except.error MtErr.maskEmpty := by
  have hv0 : initial_mask (fun _ : Fin 1 => ![none, some (-1)])
      (fun _ : Fin 2 => true) 0 = false := by
    rw [initial_mask]
    have hs : summedImage (fun _ : Fin 1 => ![none, some (-1)]) (0 : Fin 2) = none := rfl
    rw [hs]
    simp [mask_refiner]
  have hv1 : initial_mask (fun _ : Fin 1 => ![none, some (-1)])
      (fun _ : Fin 2 => true) 1 = false := by
    rw [initial_mask]
    have hs : summedImage (fun _ : Fin 1 => ![none, some (-1)]) (1 : Fin 2) =
        some (0 + (-1)) := rfl
    rw [hs]
    simp [mask_refiner]
  have hc : countActive (initial_mask (fun _ : Fin 1 => ![none, some (-1)])
      (fun _ : Fin 2 => true)) = 0 := by
    rw [countActive]
    have hvl : voxList 2 = [0, 1] := rfl
    rw [hvl]
    simp [List.filter, hv0, hv1]
  exact ⟨hc, (initial_mask_filter_and_empty_mask_fatal.2.2) 2 1 Unit Unit (fun _ : Fin 1 => ![none, some (-1)])
    (fun _ : Fin 2 => true) (fun _ _ => ()) (fun d => Except.ok ((), d))
    (fun _ d => Except.ok ((), d)) (fun _ d => d) DEFAULT_MAIN_ITER_VALUE hc⟩

section ControllerLemmas

variable {M D : Type} [DecidableEq M]

theorem innerStateSeq_shift (T : ℕ) (bs : M → D → D) (rs : ℚ → D → M × D)
    (m : M) (d : D) (k : ℕ) :
    innerStateSeq T bs rs (innerPassStep T bs rs m d).1 (innerPassStep T bs rs m d).2 k =
      innerStateSeq T bs rs m d (k + 1) := by
  induction k with
  | zero => rfl
  | succ k ih =>
      rw [innerStateSeq, ih]
      rfl

theorem maskSeq_shift (T : ℕ) (bs : M → D → D) (rs : ℚ → D → M × D)
    (m prev : M) (d : D) (k : ℕ) :
    maskSeq T bs rs (innerPassStep T bs rs m d).1 (innerPassStep T bs rs m d).1
      (innerPassStep T bs rs m d).2 k = maskSeq T bs rs m prev d (k + 1) := by
  cases k with
  | zero => rfl
  | succ k =>
      rw [maskSeq, innerStateSeq_shift]
      rfl

theorem stabAt_one (T : ℕ) (bs : M → D → D) (rs : ℚ → D → M × D)
    (m prev : M) (d : D) :
    stabAt T bs rs m prev d 1 ↔ (innerPassStep T bs rs m d).1 = prev := Iff.rfl

theorem stabAt_shift (T : ℕ) (bs : M → D → D) (rs : ℚ → D → M × D)
    (m prev : M) (d : D) (j : ℕ) :
    stabAt T bs rs (innerPassStep T bs rs m d).1 (innerPassStep T bs rs m d).1
      (innerPassStep T bs rs m d).2 (j + 1) ↔ stabAt T bs rs m prev d (j + 2) := by
  unfold stabAt
  have h1 : j + 1 - 1 = j := rfl
  have h2 : j + 2 - 1 = j + 1 := rfl
  rw [h1, h2, maskSeq_shift T bs rs m prev d (j + 1), maskSeq_shift T bs rs m prev d j]

theorem innerLoop_characterisation (T : ℕ) (bs : M → D → D) (rs : ℚ → D → M × D) :
    ∀ (fuel : ℕ) (m prev : M) (d : D),
      ((innerLoop T bs rs fuel m prev d).converged = true ↔
        ∃ k, 1 ≤ k ∧ k ≤ fuel ∧ stabAt T bs rs m prev d k) ∧
      ((innerLoop T bs rs fuel m prev d).converged = true →
        stabAt T bs rs m prev d (innerLoop T bs rs fuel m prev d).passes ∧
        1 ≤ (innerLoop T bs rs fuel m prev d).passes ∧
        (innerLoop T bs rs fuel m prev d).passes ≤ fuel ∧
        ∀ k, 1 ≤ k → k < (innerLoop T bs rs fuel m prev d).passes →
          ¬ stabAt T bs rs m prev d k) ∧
      ((innerLoop T bs rs fuel m prev d).converged = false →
        (innerLoop T bs rs fuel m prev d).passes = fuel ∧
        ∀ k, 1 ≤ k → k ≤ fuel → ¬ stabAt T bs rs m prev d k) := by
  intro fuel
  induction fuel with
  | zero =>
      intro m prev d
      refine ⟨?_, ?_, ?_⟩
      · simp [innerLoop]
        omega
      · intro h
        simp [innerLoop] at h
      · intro _
        refine ⟨rfl, ?_⟩
        intro k hk1 hk0
        omega
  | succ fuel ih =>
      intro m prev d
      by_cases heq : (innerPassStep T bs rs m d).1 = prev
      · rw [innerLoop, if_pos heq]
        dsimp only
        refine ⟨?_, ?_, ?_⟩
        · constructor
          · intro _
            exact ⟨1, le_refl 1, by omega, (stabAt_one T bs rs m prev d).mpr heq⟩
          · intro _
            rfl
        · intro _
          refine ⟨(stabAt_one T bs rs m prev d).mpr heq, le_refl 1, by omega, ?_⟩
          intro k hk1 hklt
          omega
        · intro h
          exact absurd h (by simp)
      · rw [innerLoop, if_neg heq]
        dsimp only
        have ihp := ih (innerPassStep T bs rs m d).1 (innerPassStep T bs rs m d).1
          (innerPassStep T bs rs m d).2
        have hstab1 : ¬ stabAt T bs rs m prev d 1 := by
          intro hc
          exact heq ((stabAt_one T bs rs m prev d).mp hc)
        refine ⟨?_, ?_, ?_⟩
        · constructor
          · intro hc
            obtain ⟨k, hk1, hkle, hks⟩ := ihp.1.mp hc
            obtain ⟨j, hj⟩ : ∃ j, k = j + 1 := ⟨k - 1, by omega⟩
            subst hj
            exact ⟨j + 2, by omega, by omega,
              (stabAt_shift T bs rs m prev d j).mp hks⟩
          · intro hex
            obtain ⟨k, hk1, hkle, hks⟩ := hex
            rcases k with _ | _ | j
            · omega
            · exact absurd hks hstab1
            · exact ihp.1.mpr ⟨j + 1, by omega, by omega,
                (stabAt_shift T bs rs m prev d j).mpr hks⟩
        · intro hc
          obtain ⟨hs, hp1, hple, hmin⟩ := ihp.2.1 hc
          obtain ⟨j, hj⟩ : ∃ j, (innerLoop T bs rs fuel (innerPassStep T bs rs m d).1
              (innerPassStep T bs rs m d).1 (innerPassStep T bs rs m d).2).passes =
              j + 1 := ⟨(innerLoop T bs rs fuel (innerPassStep T bs rs m d).1
              (innerPassStep T bs rs m d).1 (innerPassStep T bs rs m d).2).passes - 1,
              by omega⟩
          rw [hj]
          rw [hj] at hs hple hmin
          refine ⟨(stabAt_shift T bs rs m prev d j).mp hs, by omega, by omega, ?_⟩
          intro k hk1 hklt
          rcases k with _ | _ | i
          · omega
          · exact hstab1
          · intro hci
            exact hmin (i + 1) (by omega) (by omega)
              ((stabAt_shift T bs rs m prev d i).mpr hci)
        · intro hc
          obtain ⟨hp, hnone⟩ := ihp.2.2 hc
          rw [hp]
          refine ⟨rfl, ?_⟩
          intro k hk1 hkle
          rcases k with _ | _ | i
          · omega
          · exact hstab1
          · intro hci
            exact hnone (i + 1) (by omega) (by omega)
              ((stabAt_shift T bs rs m prev d i).mpr hci)

theorem innerLoop_passes_bounds (T : ℕ) (bs : M → D → D) (rs : ℚ → D → M × D) :
    ∀ (fuel : ℕ) (m prev : M) (d : D),
      (innerLoop T bs rs fuel m prev d).passes ≤ fuel ∧
      (1 ≤ fuel → 1 ≤ (innerLoop T bs rs fuel m prev d).passes) := by
  intro fuel
  induction fuel with
  | zero =>
      intro m prev d
      simp [innerLoop]
  | succ fuel ih =>
      intro m prev d
      by_cases heq : (innerPassStep T bs rs m d).1 = prev
      · rw [innerLoop, if_pos heq]
        dsimp only
        omega
      · rw [innerLoop, if_neg heq]
        dsimp only
        have h := (ih (innerPassStep T bs rs m d).1 (innerPassStep T bs rs m d).1
          (innerPassStep T bs rs m d).2).1
        omega

theorem innerLoop_trace_counts (T : ℕ) (bs : M → D → D) (rs : ℚ → D → M × D) :
    ∀ (fuel : ℕ) (m prev : M) (d : D),
      evCount (ControllerEvent.reject 3) (innerLoop T bs rs fuel m prev d).trace = 0 ∧
      evCount ControllerEvent.fit (innerLoop T bs rs fuel m prev d).trace = 0 := by
  have hpass : evCount (ControllerEvent.reject 3) (innerPassTrace T) = 0 ∧
      evCount ControllerEvent.fit (innerPassTrace T) = 0 := by
    by_cases hT : 1 < T <;>
      simp [innerPassTrace, hT, evCount, List.countP_append, List.countP_cons] <;>
      norm_num
  intro fuel
  induction fuel with
  | zero =>
      intro m prev d
      simp [innerLoop, evCount]
  | succ fuel ih =>
      intro m prev d
      by_cases heq : (innerPassStep T bs rs m d).1 = prev
      · rw [innerLoop, if_pos heq]
        dsimp only
        exact hpass
      · rw [innerLoop, if_neg heq]
        dsimp only
        have h := ih (innerPassStep T bs rs m d).1 (innerPassStep T bs rs m d).1
          (innerPassStep T bs rs m d).2
        rw [evCount, evCount, List.countP_append, List.countP_append]
        have hp1 := hpass.1
        have hp2 := hpass.2
        have h1 := h.1
        have h2 := h.2
        rw [evCount] at hp1 hp2 h1 h2
        omega


theorem outerLoop_structure (T : ℕ) (bs : M → D → D) (rs : ℚ → D → M × D)
    (fs : M → D → D) :
    ∀ (iters : ℕ) (m prev : M) (d : D),
      (outerLoop T bs rs fs iters m prev d).innerCounts.length = iters ∧
      (outerLoop T bs rs fs iters m prev d).innerConvs.length = iters ∧
      evCount ControllerEvent.fit (outerLoop T bs rs fs iters m prev d).trace = iters ∧
      evCount (ControllerEvent.reject 3) (outerLoop T bs rs fs iters m prev d).trace = 0 ∧
      (∀ c ∈ (outerLoop T bs rs fs iters m prev d).innerCounts,
        1 ≤ c ∧ c ≤ DEFAULT_BALANCE_MAXITER_VALUE) := by
  intro iters
  induction iters with
  | zero =>
      intro m prev d
      simp [outerLoop, evCount]
  | succ iters ih =>
      intro m prev d
      rw [outerLoop]
      dsimp only
      set r := innerLoop T bs rs DEFAULT_BALANCE_MAXITER_VALUE m prev d with hr
      have hrest := ih r.mask r.mask (fs r.mask r.data)
      have hbounds := innerLoop_passes_bounds T bs rs DEFAULT_BALANCE_MAXITER_VALUE m prev d
      have htr := innerLoop_trace_counts T bs rs DEFAULT_BALANCE_MAXITER_VALUE m prev d
      refine ⟨?_, ?_, ?_, ?_, ?_⟩
      · simp [hrest.1]
      · simp [hrest.2.1]
      · have h1 := htr.2
        have h2 := hrest.2.2.1
        rw [evCount] at h1 h2
        rw [evCount, List.countP_append, List.countP_cons, h1, h2]
        simp
      · have h1 := htr.1
        have h2 := hrest.2.2.2.1
        rw [evCount] at h1 h2
        rw [evCount, List.countP_append, List.countP_cons, h1, h2]
        simp
      · intro c hc
        rcases List.mem_cons.mp hc with hceq | hcmem
        · subst hceq
          exact ⟨hbounds.2 (by norm_num [DEFAULT_BALANCE_MAXITER_VALUE]), hbounds.1⟩
        · exact hrest.2.2.2.2 c hcmem


/-- Claim C5: the controller performs exactly one coarse rejection with range
3.0 and it is the first event, before any outer iteration; the outer loop runs
exactly max_iter times with no early exit (max_iter inner loops and max_iter
field fits, whether or not the inner loop converged); each inner pass is
balance estimation (only with more than one tissue) followed by rejection with
range 1.5; the inner loop runs at least 1 and at most 7 passes, and it
terminates early exactly when the post-rejection mask is identical to
prev_mask (the characterisation at fuel 7: converged iff some pass within fuel
stabilises, the loop stops at the first such pass, and without stabilisation
it runs all 7 passes — which is not an error: the trace still holds a field
fit for every iteration).  The component bodies are abstract parameters; the
statement is about the control flow of lines 501-628 alone. -/
theorem controller_schedule (T : ℕ) (bs : M → D → D) (rs : ℚ → D → M × D)
    (fs : M → D → D) (maxIter : ℕ) (d0 : D) :
    (runController T bs rs fs maxIter d0).trace.head? = some (ControllerEvent.reject 3) ∧
    evCount (ControllerEvent.reject 3) (runController T bs rs fs maxIter d0).trace = 1 ∧
    (runController T bs rs fs maxIter d0).innerCounts.length = maxIter ∧
    (runController T bs rs fs maxIter d0).innerConvs.length = maxIter ∧
    evCount ControllerEvent.fit (runController T bs rs fs maxIter d0).trace = maxIter ∧
    (∀ c ∈ (runController T bs rs fs maxIter d0).innerCounts,
      1 ≤ c ∧ c ≤ DEFAULT_BALANCE_MAXITER_VALUE) ∧
    (∀ (m : M) (d : D), innerPassStep T bs rs m d = rs (3 / 2) (if 1 < T then bs m d else d)) ∧
    (∀ (m prev : M) (d : D),
      ((innerLoop T bs rs DEFAULT_BALANCE_MAXITER_VALUE m prev d).converged = true ↔
        ∃ k, 1 ≤ k ∧ k ≤ DEFAULT_BALANCE_MAXITER_VALUE ∧ stabAt T bs rs m prev d k) ∧
      ((innerLoop T bs rs DEFAULT_BALANCE_MAXITER_VALUE m prev d).converged = true →
        stabAt T bs rs m prev d
          (innerLoop T bs rs DEFAULT_BALANCE_MAXITER_VALUE m prev d).passes ∧
        1 ≤ (innerLoop T bs rs DEFAULT_BALANCE_MAXITER_VALUE m prev d).passes ∧
        (innerLoop T bs rs DEFAULT_BALANCE_MAXITER_VALUE m prev d).passes ≤
          DEFAULT_BALANCE_MAXITER_VALUE ∧
        ∀ k, 1 ≤ k → k < (innerLoop T bs rs DEFAULT_BALANCE_MAXITER_VALUE m prev d).passes →
          ¬ stabAt T bs rs m prev d k) ∧
      ((innerLoop T bs rs DEFAULT_BALANCE_MAXITER_VALUE m prev d).converged = false →
        (innerLoop T bs rs DEFAULT_BALANCE_MAXITER_VALUE m prev d).passes =
          DEFAULT_BALANCE_MAXITER_VALUE ∧
        ∀ k, 1 ≤ k → k ≤ DEFAULT_BALANCE_MAXITER_VALUE →
          ¬ stabAt T bs rs m prev d k)) := by
  have hout := outerLoop_structure T bs rs fs maxIter (rs 3 d0).1 (rs 3 d0).1 (rs 3 d0).2
  refine ⟨?_, ?_, ?_, ?_, ?_, ?_, fun m d => rfl,
    fun m prev d => innerLoop_characterisation T bs rs DEFAULT_BALANCE_MAXITER_VALUE m prev d⟩
  · rfl
  · rw [runController]
    dsimp only
    have h2 := hout.2.2.2.1
    rw [evCount] at h2
    rw [evCount, List.countP_cons, h2]
    simp
  · rw [runController]
    dsimp only
    exact hout.1
  · rw [runController]
    dsimp only
    exact hout.2.1
  · rw [runController]
    dsimp only
    have h2 := hout.2.2.1
    rw [evCount] at h2
    rw [evCount, List.countP_cons, h2]
    simp
  · rw [runController]
    dsimp only
    exact hout.2.2.2.2

end ControllerLemmas
